import Mathlib

set_option maxRecDepth 4000

/-!
Verification development for the timew-celoxis tool.

Shallow embedding of `src/main.rs` and `src/celoxis.rs`.  Machine time is
modelled as `Int` seconds since the Unix epoch; `chrono::NaiveDate` is
modelled as an `Int` day count since the epoch; Rust `String` is modelled
by Lean `String` (operated on through `List Char`); `HashMap` is modelled
as an association list in insertion order (hash iteration order is
unspecified in Rust, so set/permutation statements are used wherever maps
are compared); fallible Rust functions returning `Result` are modelled
with `Except String`.
-/

/-- The double-quote character (used by the timewarrior tag tokenizer). -/
def quoteChar : Char := Char.ofNat 34

/-- Whitespace test modelling Rust `char::is_whitespace` on the ASCII range. -/
def isWs (c : Char) : Bool := c = ' ' || c = '\t' || c = '\n' || c = '\r'

/-- Model of Rust `str::trim` over a character list. -/
def trimChars (s : List Char) : List Char :=
  ((s.dropWhile isWs).reverse.dropWhile isWs).reverse

/-- Split at the first occurrence of `sep` (a non-empty pattern): returns the
text before and after the first match, or `none` when `sep` does not occur. -/
def splitFirst (sep : List Char) : List Char → Option (List Char × List Char)
  | [] => if sep = [] then some ([], []) else none
  | c :: rest =>
    if sep.isPrefixOf (c :: rest) then some ([], (c :: rest).drop sep.length)
    else
      match splitFirst sep rest with
      | some (a, b) => some (c :: a, b)
      | none => none

/-- Model of Rust `str::splitn(2, sep)`. -/
def splitn2 (sep s : List Char) : List (List Char) :=
  match splitFirst sep s with
  | some (a, b) => [a, b]
  | none => [s]

/-- Fuel-indexed worker for `splitAllOn`; the fuel bounds the number of
separator occurrences, which is at most the length of the input. -/
def splitAllAux (sep : List Char) : Nat → List Char → List (List Char)
  | 0, s => [s]
  | fuel + 1, s =>
    match splitFirst sep s with
    | some (a, b) => a :: splitAllAux sep fuel b
    | none => [s]

/-- Model of Rust `str::split(sep)` for a non-empty pattern `sep`. -/
def splitAllOn (sep s : List Char) : List (List Char) :=
  splitAllAux sep (s.length + 1) s

/-- Numeric value of a decimal digit character. -/
def digitVal (c : Char) : Nat := c.toNat - 48

/-- Days in a month of the proleptic Gregorian calendar. -/
def daysInMonth (y m : Int) : Int :=
  if m = 2 then (if y % 4 = 0 ∧ (y % 100 ≠ 0 ∨ y % 400 = 0) then 29 else 28)
  else if m = 4 ∨ m = 6 ∨ m = 9 ∨ m = 11 then 30
  else 31

/-- Day count since 1970-01-01 of a proleptic Gregorian date
(Hinnant's civil-from-days algorithm, as used by date libraries). -/
def daysFromCivil (y m d : Int) : Int :=
  let y1 := y - (if m ≤ 2 then 1 else 0)
  let era := Int.fdiv y1 400
  let yoe := y1 - era * 400
  let mp := m + (if 2 < m then -3 else 9)
  let doy := Int.fdiv (153 * mp + 2) 5 + d - 1
  let doe := yoe * 365 + Int.fdiv yoe 4 - Int.fdiv yoe 100 + doy
  era * 146097 + doe - 719468

/-- Inverse of `daysFromCivil`: (year, month, day) of an epoch day count. -/
def civilFromDays (z0 : Int) : Int × Int × Int :=
  let z := z0 + 719468
  let era := Int.fdiv z 146097
  let doe := z - era * 146097
  let yoe :=
    Int.fdiv (doe - Int.fdiv doe 1460 + Int.fdiv doe 36524 - Int.fdiv doe 146096) 365
  let y := yoe + era * 400
  let doy := doe - (365 * yoe + Int.fdiv yoe 4 - Int.fdiv yoe 100)
  let mp := Int.fdiv (5 * doy + 2) 153
  let d := doy - Int.fdiv (153 * mp + 2) 5 + 1
  let m := mp + (if mp < 10 then 3 else -9)
  (y + (if m ≤ 2 then 1 else 0), m, d)

/-- UTC timestamp (seconds since the epoch) from calendar components. -/
def toSecs (y m d h mi s : Int) : Int :=
  daysFromCivil y m d * 86400 + h * 3600 + mi * 60 + s

/-- Zero-pad a number to two digits, as `chrono` does for month and day. -/
def pad2 (n : Int) : String :=
  if n < 10 ∧ 0 ≤ n then "0" ++ toString n else toString n

/-- Zero-pad a year to four digits, as `chrono` does for `%Y`. -/
def pad4 (n : Int) : String :=
  if 0 ≤ n ∧ n < 10 then "000" ++ toString n
  else if 0 ≤ n ∧ n < 100 then "00" ++ toString n
  else if 0 ≤ n ∧ n < 1000 then "0" ++ toString n
  else toString n

/-- Model of `NaiveDate::format("%Y-%m-%d")` on an epoch day count
(main.rs line 780). -/
def formatDate (day : Int) : String :=
  match civilFromDays day with
  | (y, m, d) => pad4 y ++ "-" ++ pad2 m ++ "-" ++ pad2 d

/-- Model of `chrono::NaiveDateTime::parse_from_str` with format
`%Y%m%dT%H%M%SZ` (compact UTC form used by timewarrior). -/
def parseCompactTs (s : List Char) : Except String Int :=
  match s with
  | [y1, y2, y3, y4, mo1, mo2, d1, d2, t, h1, h2, mi1, mi2, s1, s2, z] =>
    if t = 'T' && z = 'Z' &&
        [y1, y2, y3, y4, mo1, mo2, d1, d2, h1, h2, mi1, mi2, s1, s2].all Char.isDigit then
      let y : Int := Int.ofNat (digitVal y1 * 1000 + digitVal y2 * 100 + digitVal y3 * 10 + digitVal y4)
      let mo : Int := Int.ofNat (digitVal mo1 * 10 + digitVal mo2)
      let d : Int := Int.ofNat (digitVal d1 * 10 + digitVal d2)
      let h : Int := Int.ofNat (digitVal h1 * 10 + digitVal h2)
      let mi : Int := Int.ofNat (digitVal mi1 * 10 + digitVal mi2)
      let ss : Int := Int.ofNat (digitVal s1 * 10 + digitVal s2)
      if 1 ≤ mo ∧ mo ≤ 12 ∧ 1 ≤ d ∧ d ≤ daysInMonth y mo ∧ h ≤ 23 ∧ mi ≤ 59 ∧ ss ≤ 59 then
        .ok (toSecs y mo d h mi ss)
      else .error "input is out of range"
    else .error "input contains invalid characters"
  | _ => .error "premature end of input"

/-- Normalized time entry (main.rs lines 18-27).  `start`/`end_` are UTC
seconds since the epoch; `end_ = none` is a still-running interval. -/
structure TimeEntry where
  id : String
  start : Int
  end_ : Option Int
  tags : List String
  annotation : Option String
  submitted : Bool
  celoxis_id : Option String
deriving DecidableEq, Repr

/-- One step of the character scanner of the tag section of
`TimeEntry::from_timewarrior` (main.rs lines 70-87): state is
(finished tags, current tag, in-quotes flag). -/
def tagStep (st : List String × List Char × Bool) (c : Char) :
    List String × List Char × Bool :=
  let (tags, cur, inq) := st
  if c = quoteChar then
    let inq2 := !inq
    if inq2 = false && !cur.isEmpty then (tags ++ [String.mk cur], [], inq2)
    else (tags, cur, inq2)
  else if c = ' ' && inq = false then
    if !cur.isEmpty then (tags ++ [String.mk cur], [], inq) else (tags, cur, inq)
  else (tags, cur ++ [c], inq)

/-- The tag tokenizer of `TimeEntry::from_timewarrior`
(main.rs lines 64-93): scans the trimmed text after `#`. -/
def parseTags (s : String) : List String :=
  let st := s.data.foldl tagStep ([], [], false)
  if !st.2.1.isEmpty then st.1 ++ [String.mk st.2.1] else st.1

/-- Model of `TimeEntry::from_timewarrior` (main.rs lines 30-107): parses one
`inc <start> - <end> # "tag" ...` line of a timewarrior data file. -/
def TimeEntry.from_timewarrior (line : String) (entry_id : String) :
    Except String TimeEntry :=
  let l := line.data
  if trimChars l = [] then .error "Empty line"
  else if ("inc ".data.isPrefixOf l) = false then .error "Line doesn't start with 'inc'"
  else
    let parts := splitn2 "inc ".data l
    if parts.length ≠ 2 then .error "Invalid interval format"
    else
      let interval_and_tags := splitn2 ['#'] (parts.getD 1 [])
      let interval := trimChars (interval_and_tags.getD 0 [])
      let timestamps := splitAllOn " - ".data interval
      if timestamps.length ≠ 2 then .error "Invalid timestamp format"
      else
        match parseCompactTs (trimChars (timestamps.getD 0 [])) with
        | .error e => .error e
        | .ok startv =>
          let endTrim := trimChars (timestamps.getD 1 [])
          let endRes : Except String (Option Int) :=
            if endTrim = [] then .ok none
            else
              match parseCompactTs endTrim with
              | .error e => .error e
              | .ok v => .ok (some v)
          match endRes with
          | .error e => .error e
          | .ok endv =>
            let tags :=
              if 1 < interval_and_tags.length then
                parseTags (String.mk (trimChars (interval_and_tags.getD 1 [])))
              else []
            .ok { id := entry_id, start := startv, end_ := endv, tags := tags,
                  annotation := none, submitted := false, celoxis_id := none }

/-- Grouped entry (main.rs lines 116-122).  The two maps keyed by
`NaiveDate` are modelled as association lists keyed by the epoch day. -/
structure GroupedEntry where
  tags : List String
  total_duration : List (Int × Int)
  entries : List (Int × List TimeEntry)
  all_submitted : Bool
deriving DecidableEq, Repr

/-- Sort-normalized tag vector (main.rs lines 408-411, `tags.sort()`). -/
def sortTags (ts : List String) : List String :=
  List.insertionSort (· ≤ ·) ts

/-- The partition key of an entry: its sorted tag vector. -/
def entryKey (e : TimeEntry) : List String := sortTags e.tags

/-- Model of `TimeData::to_local_date` (main.rs lines 386-388): the local
calendar day of a UTC instant, for a fixed timezone offset `tz` seconds. -/
def to_local_date (tz : Int) (utc : Int) : Int := Int.fdiv (utc + tz) 86400

/-- Local calendar day of an entry's start instant (main.rs line 414). -/
def entryDate (tz : Int) (e : TimeEntry) : Int := to_local_date tz e.start

/-- Whole-minute duration of an entry (main.rs lines 433-436):
`(end or now) - start` in minutes, truncated toward zero as
`chrono::Duration::num_minutes` does. -/
def entryMinutes (now : Int) (e : TimeEntry) : Int :=
  ((e.end_.getD now) - e.start).tdiv 60

/-- Entries of the input whose sorted tag vector is `k`
(the contents of one bucket of the outer `HashMap`, main.rs lines 404-422). -/
def keyEntries (k : List String) (entries : List TimeEntry) : List TimeEntry :=
  entries.filter (fun e => decide (entryKey e = k))

/-- The distinct local dates of a bucket, in first-occurrence order
(the key set of the inner `HashMap`). -/
def groupDates (tz : Int) (ke : List TimeEntry) : List Int :=
  (ke.map (entryDate tz)).dedup

/-- Entries of a bucket that fall on local date `d` (one inner cell). -/
def cellEntries (tz : Int) (d : Int) (ke : List TimeEntry) : List TimeEntry :=
  ke.filter (fun e => decide (entryDate tz e = d))

/-- Build the `GroupedEntry` of one tag-vector key (main.rs lines 426-451):
per-date durations are the sums of per-entry whole-minute durations, and
`all_submitted` is the conjunction of `submitted` over all cells. -/
def mkGroup (tz now : Int) (entries : List TimeEntry) (k : List String) :
    GroupedEntry :=
  let ke := keyEntries k entries
  { tags := k
    total_duration := (groupDates tz ke).map
      (fun d => (d, ((cellEntries tz d ke).map (entryMinutes now)).sum))
    entries := (groupDates tz ke).map (fun d => (d, cellEntries tz d ke))
    all_submitted := ((groupDates tz ke).map (fun d => cellEntries tz d ke)).all
      (fun es => es.all (fun e => e.submitted)) }

/-- Model of `TimeData::group_entries_by_tags` (main.rs lines 404-453):
one group per distinct sorted tag vector, in first-occurrence order
(the Rust `HashMap` iteration order is unspecified, so statements about
the result are up to permutation). -/
def TimeData.group_entries_by_tags (tz now : Int) (entries : List TimeEntry) :
    List GroupedEntry :=
  ((entries.map entryKey).dedup).map (mkGroup tz now entries)

/-- Membership of an entry in some date cell of a group. -/
def inGroup (e : TimeEntry) (g : GroupedEntry) : Prop :=
  ∃ p ∈ g.entries, e ∈ p.2

/-- Group-pool removal step of the assignment loop (main.rs lines 694-697):
keep the groups whose tag vector is not among `tags_to_remove`. -/
def removeByTags (pool : List GroupedEntry) (tags_to_remove : List (List String)) :
    List GroupedEntry :=
  pool.filter (fun g => !(tags_to_remove.contains g.tags))

/-- Cached user preferences (celoxis.rs lines 14-18). -/
structure UserPreferences where
  username : String
  time_code : String
deriving DecidableEq, Repr

/-- Remote project record (celoxis.rs lines 20-26). -/
structure CeloxisProject where
  id : String
  name : String
  description : Option String
  state : String
deriving DecidableEq, Repr

/-- Remote task record (celoxis.rs lines 28-32). -/
structure CeloxisTask where
  id : String
  name : String
deriving DecidableEq, Repr

/-- Denormalized submission record (celoxis.rs lines 34-44).  The `f64`
`hours` field is modelled as an exact rational. -/
structure CeloxisTimeEntry where
  date : String
  hours : Rat
  time_code : String
  user : String
  task : String
  state : Int
  comments : String
deriving DecidableEq, Repr

/-- On-disk cache document (celoxis.rs lines 52-58).  The two `HashMap`s
are association lists; `last_updated` is an opaque timestamp scalar. -/
structure CacheData where
  projects : List (String × CeloxisProject)
  tasks : List (String × List CeloxisTask)
  last_updated : Int
  user_prefs : Option UserPreferences
deriving DecidableEq, Repr

/-- Insert-or-replace into the projects map, modelling `HashMap::insert`
keyed by project id (celoxis.rs line 223). -/
def assocInsert (m : List (String × CeloxisProject)) (k : String)
    (v : CeloxisProject) : List (String × CeloxisProject) :=
  if m.any (fun p => p.1 == k) then m.map (fun p => if p.1 == k then (k, v) else p)
  else m ++ [(k, v)]

/-- Model of `CeloxisApi::get_projects` (celoxis.rs lines 206-230).
`remote` is the project list a remote fetch would return; the result is
(returned projects, new in-memory cache, number of remote fetches made).
When `force_refresh` is false and the in-memory cache exists the cached
map values are returned with no fetch; otherwise one fetch happens, the
cached project map is rebuilt from the response and `last_updated` is set. -/
def CeloxisApi.get_projects (cache : Option CacheData) (force_refresh : Bool)
    (remote : List CeloxisProject) (now : Int) :
    List CeloxisProject × Option CacheData × Nat :=
  match force_refresh, cache with
  | false, some c => (c.projects.map Prod.snd, some c, 0)
  | _, c0 =>
    let newCache := c0.map (fun c =>
      { c with projects := remote.foldl (fun m p => assocInsert m p.id p) [],
               last_updated := now })
    (remote, newCache, 1)

/-- Pending assignment (main.rs lines 124-133); `total_duration` is the
merged date-to-minutes map of the consumed groups. -/
structure TaskAssignment where
  groups : List GroupedEntry
  total_duration : List (Int × Int)
  celoxis_project : CeloxisProject
  celoxis_task : CeloxisTask
  summary : String
  time_code : String
  user : String

/-- Rounding of `f64::round` (half away from zero) on exact rationals. -/
def roundAwayFromZero (q : Rat) : Int :=
  if 0 ≤ q.num then (q + 1 / 2).floor else -(-q + 1 / 2).floor

/-- Hours from minutes as computed at main.rs line 777:
`((minutes / 60.0) * 100.0).round() / 100.0`, modelled exactly on `Rat`. -/
def roundHours (minutes : Int) : Rat :=
  ((roundAwayFromZero ((minutes : Rat) / 60 * 100) : Int) : Rat) / 100

/-- Model of `TaskAssignment::to_celoxis_entries` (main.rs lines 772-792):
one submission record per date of the merged duration map. -/
def TaskAssignment.to_celoxis_entries (a : TaskAssignment) : List CeloxisTimeEntry :=
  a.total_duration.map (fun p =>
    { date := formatDate p.1, hours := roundHours p.2, time_code := a.time_code,
      user := a.user, task := a.celoxis_task.id, state := 0, comments := a.summary })

/-- JSON value tree, modelling `serde_json::Value` (numbers restricted to
the integers this program stores). -/
inductive Json where
  | null
  | bool (b : Bool)
  | num (n : Int)
  | str (s : String)
  | arr (xs : List Json)
  | obj (fields : List (String × Json))

/-- Model of `Value::as_str`. -/
def Json.asStr : Json → Option String
  | .str s => some s
  | _ => none

/-- Model of `Value::as_array`. -/
def Json.asArr : Json → Option (List Json)
  | .arr xs => some xs
  | _ => none

/-- Field lookup on an object's field list, modelling `Map::get`. -/
def jGet (fs : List (String × Json)) (k : String) : Option Json :=
  (fs.find? (fun p => p.1 == k)).map Prod.snd

/-- Model of `DateTime::parse_from_rfc3339` restricted to the whole-second
forms this program can meet: `YYYY-MM-DDTHH:MM:SS` followed by `Z` or a
`+HH:MM`/`-HH:MM` offset. -/
def parseRfc3339 (s : List Char) : Except String Int :=
  match s with
  | y1 :: y2 :: y3 :: y4 :: '-' :: mo1 :: mo2 :: '-' :: d1 :: d2 :: 'T' ::
      h1 :: h2 :: ':' :: mi1 :: mi2 :: ':' :: s1 :: s2 :: rest =>
    if [y1, y2, y3, y4, mo1, mo2, d1, d2, h1, h2, mi1, mi2, s1, s2].all Char.isDigit then
      let y : Int := Int.ofNat (digitVal y1 * 1000 + digitVal y2 * 100 + digitVal y3 * 10 + digitVal y4)
      let mo : Int := Int.ofNat (digitVal mo1 * 10 + digitVal mo2)
      let d : Int := Int.ofNat (digitVal d1 * 10 + digitVal d2)
      let h : Int := Int.ofNat (digitVal h1 * 10 + digitVal h2)
      let mi : Int := Int.ofNat (digitVal mi1 * 10 + digitVal mi2)
      let ss : Int := Int.ofNat (digitVal s1 * 10 + digitVal s2)
      if 1 ≤ mo ∧ mo ≤ 12 ∧ 1 ≤ d ∧ d ≤ daysInMonth y mo ∧ h ≤ 23 ∧ mi ≤ 59 ∧ ss ≤ 59 then
        match rest with
        | ['Z'] => .ok (toSecs y mo d h mi ss)
        | [sign, oh1, oh2, ':', om1, om2] =>
          if (sign = '+' ∨ sign = '-') ∧ [oh1, oh2, om1, om2].all Char.isDigit then
            let off : Int := Int.ofNat (digitVal oh1 * 10 + digitVal oh2) * 3600 +
              Int.ofNat (digitVal om1 * 10 + digitVal om2) * 60
            .ok (toSecs y mo d h mi ss - (if sign = '+' then off else -off))
          else .error "input contains invalid characters"
        | _ => .error "input contains invalid characters"
      else .error "input is out of range"
    else .error "input contains invalid characters"
  | _ => .error "premature end of input"

/-- Timestamp parsing of `TimeData::read_time_entries` (main.rs lines
329-338): RFC3339 first, falling back to the compact UTC form. -/
def parseTsFlexible (s : String) : Except String Int :=
  match parseRfc3339 s.data with
  | .ok v => .ok v
  | .error _ => parseCompactTs s.data

/-- Parse the fields of one exported record (main.rs lines 316-370):
(start, end, tags, annotation).  Errors are the exact `ok_or` messages. -/
def parseExportEntryCore (entry : Json) :
    Except String (Int × Option Int × List String × Option String) :=
  match entry with
  | .obj fs =>
    match (jGet fs "start").bind Json.asStr with
    | none => .error "Missing start time"
    | some start_str =>
      match parseTsFlexible start_str with
      | .error e => .error e
      | .ok startv =>
        let endRes : Except String (Option Int) :=
          match jGet fs "end" with
          | some ev =>
            match ev.asStr with
            | none => .error "End time not a string"
            | some es =>
              match parseTsFlexible es with
              | .error e => .error e
              | .ok v => .ok (some v)
          | none => .ok none
        match endRes with
        | .error e => .error e
        | .ok endv =>
          let tags :=
            match (jGet fs "tags").bind Json.asArr with
            | some arr => arr.filterMap Json.asStr
            | none => []
          let ann := (jGet fs "annotation").bind Json.asStr
          .ok (startv, endv, tags, ann)
  | _ => .error "Invalid entry format"

/-- The `TimeEntry` built from one parsed record at position `idx`
(main.rs lines 372-380). -/
def mkExportEntry (idx : Nat) (core : Int × Option Int × List String × Option String) :
    TimeEntry :=
  { id := "export-" ++ toString idx, start := core.1, end_ := core.2.1,
    tags := core.2.2.1, annotation := core.2.2.2, submitted := false,
    celoxis_id := none }

/-- The record loop of `TimeData::read_time_entries` (main.rs lines
316-381): the `?` operator makes the first failing record abort the whole
function with its error. -/
def readEntriesLoop : Nat → List Json → Except String (List TimeEntry)
  | _, [] => .ok []
  | idx, j :: rest =>
    match parseExportEntryCore j with
    | .error e => .error e
    | .ok core =>
      match readEntriesLoop (idx + 1) rest with
      | .error e => .error e
      | .ok l => .ok (mkExportEntry idx core :: l)

/-- Model of `TimeData::read_time_entries` (main.rs lines 294-384) from the
point where the external tool's JSON export has been parsed into an array
of records. -/
def TimeData.read_time_entries (records : List Json) :
    Except String (List TimeEntry) :=
  readEntriesLoop 0 records

/-- Encoding of an optional string, as serde does (`None` is `null`). -/
def encodeOptStr : Option String → Json
  | some s => .str s
  | none => .null

/-- Serde encoding of a `CeloxisProject`. -/
def encodeProject (p : CeloxisProject) : Json :=
  .obj [("id", .str p.id), ("name", .str p.name),
        ("description", encodeOptStr p.description), ("state", .str p.state)]

/-- Serde encoding of a `CeloxisTask`. -/
def encodeTask (t : CeloxisTask) : Json :=
  .obj [("id", .str t.id), ("name", .str t.name)]

/-- Serde encoding of `UserPreferences`. -/
def encodePrefs (u : UserPreferences) : Json :=
  .obj [("username", .str u.username), ("time_code", .str u.time_code)]

/-- Serde encoding of the whole cache document (celoxis.rs line 200,
`serde_json::to_string_pretty`), at the JSON-tree level. -/
def encodeCacheData (c : CacheData) : Json :=
  .obj [("projects", .obj (c.projects.map (fun p => (p.1, encodeProject p.2)))),
        ("tasks", .obj (c.tasks.map (fun p => (p.1, .arr (p.2.map encodeTask))))),
        ("last_updated", .num c.last_updated),
        ("user_prefs", match c.user_prefs with
          | some u => encodePrefs u
          | none => .null)]

/-- Serde decoding of a string. -/
def decodeStr : Json → Except String String
  | .str s => .ok s
  | _ => .error "expected string"

/-- Serde decoding of an optional string. -/
def decodeOptStr : Json → Except String (Option String)
  | .null => .ok none
  | .str s => .ok (some s)
  | _ => .error "expected string or null"

/-- Required-field lookup, failing as serde does when a field is absent. -/
def reqField (fs : List (String × Json)) (k : String) : Except String Json :=
  match jGet fs k with
  | some v => .ok v
  | none => .error ("missing field " ++ k)

/-- Serde decoding of a `CeloxisProject`; the `Option` field may be absent. -/
def decodeProject : Json → Except String CeloxisProject
  | .obj fs => do
    let id ← reqField fs "id" >>= decodeStr
    let name ← reqField fs "name" >>= decodeStr
    let description ←
      match jGet fs "description" with
      | none => pure none
      | some v => decodeOptStr v
    let state ← reqField fs "state" >>= decodeStr
    pure { id := id, name := name, description := description, state := state }
  | _ => .error "expected object"

/-- Serde decoding of a `CeloxisTask`. -/
def decodeTask : Json → Except String CeloxisTask
  | .obj fs => do
    let id ← reqField fs "id" >>= decodeStr
    let name ← reqField fs "name" >>= decodeStr
    pure { id := id, name := name }
  | _ => .error "expected object"

/-- Serde decoding of a task list. -/
def decodeTaskList : Json → Except String (List CeloxisTask)
  | .arr xs => xs.mapM decodeTask
  | _ => .error "expected array"

/-- Serde decoding of `UserPreferences`. -/
def decodePrefs : Json → Except String UserPreferences
  | .obj fs => do
    let u ← reqField fs "username" >>= decodeStr
    let t ← reqField fs "time_code" >>= decodeStr
    pure { username := u, time_code := t }
  | _ => .error "expected object"

/-- Serde decoding of a string-keyed map as an association list. -/
def decodeMap {β : Type} (dec : Json → Except String β) :
    Json → Except String (List (String × β))
  | .obj fs => fs.mapM (fun p => do
      let v ← dec p.2
      pure (p.1, v))
  | _ => .error "expected object"

/-- Serde decoding of a number. -/
def decodeNum : Json → Except String Int
  | .num n => .ok n
  | _ => .error "expected number"

/-- Serde decoding of the whole cache document. -/
def decodeCacheData : Json → Except String CacheData
  | .obj fs => do
    let projects ← reqField fs "projects" >>= decodeMap decodeProject
    let tasks ← reqField fs "tasks" >>= decodeMap decodeTaskList
    let last_updated ← reqField fs "last_updated" >>= decodeNum
    let user_prefs ←
      match jGet fs "user_prefs" with
      | none => pure none
      | some .null => pure none
      | some v => do
        let p ← decodePrefs v
        pure (some p)
    pure { projects := projects, tasks := tasks, last_updated := last_updated,
           user_prefs := user_prefs }
  | _ => .error "expected object"

/-- Model of `CeloxisApi::save_cache` (celoxis.rs lines 193-204): when an
in-memory cache exists, the file's contents are replaced by its
serialization; otherwise the file is untouched. -/
def CeloxisApi.save_cache (cache : Option CacheData) (file : Option Json) :
    Option Json :=
  match cache with
  | some c => some (encodeCacheData c)
  | none => file

/-- Model of `CeloxisApi::load_cache` (celoxis.rs lines 178-191): read and
deserialize the cache file, or initialize an empty cache stamped `now`
when the file is absent. -/
def CeloxisApi.load_cache (file : Option Json) (now : Int) :
    Except String CacheData :=
  match file with
  | some j => decodeCacheData j
  | none => .ok { projects := [], tasks := [], last_updated := now,
                  user_prefs := none }

/-- Identification of entries that differ only in the stored order of
their tag vector (the claim C6 notion of "the same entry"). -/
def EntryEquiv (e e' : TimeEntry) : Prop :=
  e.id = e'.id ∧ e.start = e'.start ∧ e.end_ = e'.end_ ∧ e.tags.Perm e'.tags ∧
  e.annotation = e'.annotation ∧ e.submitted = e'.submitted ∧
  e.celoxis_id = e'.celoxis_id

instance (e e' : TimeEntry) : Decidable (EntryEquiv e e') := by
  unfold EntryEquiv; exact inferInstance

/-- Two entry lists that contain the same entries up to order and up to
per-entry tag reordering. -/
def EntryListEquiv (l1 l2 : List TimeEntry) : Prop :=
  ∃ m, List.Forall₂ EntryEquiv l1 m ∧ m.Perm l2

/-- Lift of `EntryListEquiv` to optional date cells. -/
def OptCellEquiv : Option (List TimeEntry) → Option (List TimeEntry) → Prop
  | none, none => True
  | some a, some b => EntryListEquiv a b
  | _, _ => False

/-- Invariant of the tag scanner state: no finished tag and no pending tag
text contains a double quote. -/
def TagStateOk (st : List String × List Char × Bool) : Prop :=
  (∀ t ∈ st.1, ∀ c ∈ t.data, c ≠ quoteChar) ∧ ∀ c ∈ st.2.1, c ≠ quoteChar

/-- A concrete active project, used in concrete instances. -/
def sampleProject : CeloxisProject :=
  { id := "P1", name := "Proj", description := none, state := "Active" }

/-- A cache whose project and task maps are empty. -/
def emptyCacheData : CacheData :=
  { projects := [], tasks := [], last_updated := 0, user_prefs := none }

/-- A well-formed exported record: an object with a parseable start time. -/
def goodRecord : Json := Json.obj [("start", Json.str "20240102T090000Z")]

/-- A malformed exported record: an object with no start field. -/
def badRecord : Json := Json.obj []

/-- A concrete closed entry with tags `["a", "b"]`. -/
def sampleEntryA : TimeEntry :=
  { id := "@a", start := toSecs 2024 1 2 9 0 0,
    end_ := some (toSecs 2024 1 2 11 0 0), tags := ["a", "b"],
    annotation := none, submitted := false, celoxis_id := none }

/-- A concrete open entry with tags stored as `["b", "a"]`. -/
def sampleEntryB : TimeEntry :=
  { id := "@b", start := toSecs 2024 1 2 13 0 0, end_ := none,
    tags := ["b", "a"], annotation := none, submitted := false,
    celoxis_id := none }

/-- The same entry as `sampleEntryB` with its tags stored as `["a", "b"]`. -/
def sampleEntryB2 : TimeEntry :=
  { id := "@b", start := toSecs 2024 1 2 13 0 0, end_ := none,
    tags := ["a", "b"], annotation := none, submitted := false,
    celoxis_id := none }

/-- A concrete zero-length entry (start equal to end) with no tags. -/
def sampleEntryZero : TimeEntry :=
  { id := "@z", start := toSecs 2024 1 2 9 0 0,
    end_ := some (toSecs 2024 1 2 9 0 0), tags := [], annotation := none,
    submitted := false, celoxis_id := none }

/-- The assignment of the claim C7 scenario: 90 minutes on 2024-01-02 and
45 minutes on 2024-01-03, task T1, time code engineering_labor, user
alice. -/
def sampleAssignment : TaskAssignment :=
  { groups := []
    total_duration := [(daysFromCivil 2024 1 2, 90), (daysFromCivil 2024 1 3, 45)]
    celoxis_project := sampleProject
    celoxis_task := { id := "T1", name := "Task one" }
    summary := "did work"
    time_code := "engineering_labor"
    user := "alice" }

/-- Claim C1 counterexample: with an in-memory cache present but an empty
cached project mapping, `get_projects` with `force_refresh = false` makes
zero remote fetches, leaves the cache unpopulated, and returns the empty
cached value set, even though the remote would return a project. -/
theorem get_projects_cold_cache_counterexample :
    CeloxisApi.get_projects (some emptyCacheData) false [sampleProject] 0
      = ([], some emptyCacheData, 0) := rfl

/-- Claim C1 (amended): whenever the in-memory cache exists, calling
`get_projects` with `force_refresh = false` returns the cached mapping's
values with no remote fetch — even when the mapping is empty (there is no
cold-cache fallback); a remote fetch (exactly one) happens only when
`force_refresh` is true or the in-memory cache is absent. -/
theorem get_projects_cached_no_fetch (c : CacheData)
    (remote : List CeloxisProject) (now : Int) :
    CeloxisApi.get_projects (some c) false remote now
        = (c.projects.map Prod.snd, some c, 0) ∧
    (CeloxisApi.get_projects (some c) true remote now).2.2 = 1 ∧
    (CeloxisApi.get_projects none false remote now).2.2 = 1 :=
  ⟨rfl, rfl, rfl⟩

/-- Claim C3 (code bug evidence): the open-interval line
`inc 20240102T090000Z -` is rejected with "Invalid timestamp format",
because the interval text is trimmed before being split on the
three-character separator; a closed interval with the same start parses
to the expected entry, showing the embedding of the parser is faithful. -/
theorem from_timewarrior_open_interval_behavior :
    TimeEntry.from_timewarrior "inc 20240102T090000Z -" "@1"
        = .error "Invalid timestamp format" ∧
    TimeEntry.from_timewarrior
        "inc 20240102T090000Z - 20240102T110000Z # \"project:X\" \"description:build\""
        "@2"
      = .ok { id := "@2", start := toSecs 2024 1 2 9 0 0,
              end_ := some (toSecs 2024 1 2 11 0 0),
              tags := ["project:X", "description:build"], annotation := none,
              submitted := false, celoxis_id := none } :=
  ⟨rfl, rfl⟩

/-- Bridge between the computable `Rat.floor` and the floor of the
`FloorRing` instance of the rationals. -/
theorem rat_floor_eq_int_floor (x : Rat) : x.floor = ⌊x⌋ := by
  rw [Rat.floor_def', Rat.floor_def]

/-- Ninety minutes convert to one and a half hours. -/
theorem roundHours_90 : roundHours 90 = 3 / 2 := by
  have h1 : ((90 : Int) : Rat) / 60 * 100 = 150 := by norm_num
  rw [roundHours, roundAwayFromZero, h1]
  rw [if_pos (by norm_num)]
  rw [rat_floor_eq_int_floor]
  have h2 : ⌊(150 : Rat) + 1 / 2⌋ = 150 := by
    rw [Int.floor_eq_iff]
    norm_num
  rw [h2]
  norm_num

/-- Forty-five minutes convert to three quarters of an hour. -/
theorem roundHours_45 : roundHours 45 = 3 / 4 := by
  have h1 : ((45 : Int) : Rat) / 60 * 100 = 75 := by norm_num
  rw [roundHours, roundAwayFromZero, h1]
  rw [if_pos (by norm_num)]
  rw [rat_floor_eq_int_floor]
  have h2 : ⌊(75 : Rat) + 1 / 2⌋ = 75 := by
    rw [Int.floor_eq_iff]
    norm_num
  rw [h2]
  norm_num

/-- Claim C7: `to_celoxis_entries` produces one record per entry of the
merged date-to-minutes map, each carrying the `YYYY-MM-DD` date, hours
equal to minutes over sixty rounded to two decimals, the task id, time
code, user, state 0, and the summary as comments; in the spec scenario
90 minutes gives 1.5 hours and 45 minutes gives 0.75 hours. -/
theorem to_celoxis_entries_spec (a : TaskAssignment) :
    a.to_celoxis_entries.length = a.total_duration.length ∧
    (∀ p ∈ a.total_duration,
      ({ date := formatDate p.1, hours := roundHours p.2,
         time_code := a.time_code, user := a.user, task := a.celoxis_task.id,
         state := 0, comments := a.summary } : CeloxisTimeEntry)
        ∈ a.to_celoxis_entries) ∧
    roundHours 90 = 3 / 2 ∧ roundHours 45 = 3 / 4 ∧
    sampleAssignment.to_celoxis_entries
      = [{ date := "2024-01-02", hours := 3 / 2, time_code := "engineering_labor",
           user := "alice", task := "T1", state := 0, comments := "did work" },
         { date := "2024-01-03", hours := 3 / 4, time_code := "engineering_labor",
           user := "alice", task := "T1", state := 0, comments := "did work" }] := by
  refine ⟨List.length_map _ _, ?_, roundHours_90, roundHours_45, ?_⟩
  · intro p hp
    exact List.mem_map.2 ⟨p, hp, rfl⟩
  · simp only [sampleAssignment, TaskAssignment.to_celoxis_entries, List.map_cons,
      List.map_nil]
    rw [show formatDate (daysFromCivil 2024 1 2) = "2024-01-02" by decide]
    rw [show formatDate (daysFromCivil 2024 1 3) = "2024-01-03" by decide]
    rw [roundHours_90, roundHours_45]

/-- Claim C7 witness: the record for 2024-01-02 / 90 minutes is among the
records produced for the concrete sample assignment. -/
theorem to_celoxis_entries_spec_witness :
    ({ date := formatDate (daysFromCivil 2024 1 2), hours := roundHours 90,
       time_code := "engineering_labor", user := "alice", task := "T1",
       state := 0, comments := "did work" } : CeloxisTimeEntry)
      ∈ sampleAssignment.to_celoxis_entries :=
  (to_celoxis_entries_spec sampleAssignment).2.1 (daysFromCivil 2024 1 2, 90)
    (by decide)

/-- One scanner step preserves the no-quote invariant. -/
theorem tagStep_ok {st : List String × List Char × Bool} (h : TagStateOk st)
    (c : Char) : TagStateOk (tagStep st c) := by
  obtain ⟨tags, cur, inq⟩ := st
  obtain ⟨h1, h2⟩ := h
  simp only [TagStateOk] at h1 h2 ⊢
  unfold tagStep
  dsimp only
  by_cases hq : c = quoteChar
  · rw [if_pos hq]
    by_cases hpush : ((!inq) = false && !cur.isEmpty) = true
    · rw [if_pos hpush]
      refine ⟨?_, by simp⟩
      intro t ht
      rcases List.mem_append.1 ht with h' | h'
      · exact h1 t h'
      · rcases List.mem_singleton.1 h' with rfl
        simpa using h2
    · rw [if_neg hpush]
      exact ⟨h1, h2⟩
  · rw [if_neg hq]
    by_cases hsp : (c = ' ' && inq = false) = true
    · rw [if_pos hsp]
      by_cases hpush : (!cur.isEmpty) = true
      · rw [if_pos hpush]
        refine ⟨?_, by simp⟩
        intro t ht
        rcases List.mem_append.1 ht with h' | h'
        · exact h1 t h'
        · rcases List.mem_singleton.1 h' with rfl
          simpa using h2
      · rw [if_neg hpush]
        exact ⟨h1, h2⟩
    · rw [if_neg hsp]
      refine ⟨h1, ?_⟩
      intro ch hch
      rcases List.mem_append.1 hch with h' | h'
      · exact h2 ch h'
      · rcases List.mem_singleton.1 h' with rfl
        exact hq

/-- The whole scan preserves the no-quote invariant. -/
theorem foldl_tagStep_ok (cs : List Char) (st : List String × List Char × Bool)
    (h : TagStateOk st) : TagStateOk (cs.foldl tagStep st) := by
  induction cs generalizing st with
  | nil => exact h
  | cons c cs ih => exact ih _ (tagStep_ok h c)

/-- Claim C10: a double-quoted token is one tag with the quotes stripped,
unquoted text splits at spaces, and no produced tag ever contains a quote
character. -/
theorem parseTags_quote_handling :
    (∀ s : String, ∀ t ∈ parseTags s, ∀ c ∈ t.data, c ≠ quoteChar) ∧
    parseTags "\"my tag\"" = ["my tag"] ∧
    parseTags "my tag" = ["my", "tag"] := by
  refine ⟨?_, by decide, by decide⟩
  intro s t ht c hc
  have h := foldl_tagStep_ok s.data ([], [], false) (by constructor <;> simp)
  unfold parseTags at ht
  obtain ⟨h1, h2⟩ := h
  by_cases he : (!(s.data.foldl tagStep ([], [], false)).2.1.isEmpty) = true
  · rw [if_pos he] at ht
    rcases List.mem_append.1 ht with h' | h'
    · exact h1 t h' c hc
    · rcases List.mem_singleton.1 h' with rfl
      exact h2 c (by simpa using hc)
  · rw [if_neg he] at ht
    exact h1 t ht c hc

/-- Claim C10 witness: the tag produced from a quoted input contains no
quote character. -/
theorem parseTags_quote_handling_witness :
    ∀ c ∈ ("xy" : String).data, c ≠ quoteChar :=
  parseTags_quote_handling.1 "x\"y\"" "xy" (by decide)

/-- The record loop aborts with the error of the first malformed record,
whatever the starting index. -/
theorem readEntriesLoop_append_error (l1 l2 : List Json) (j : Json) (msg : String)
    (h1 : ∀ x ∈ l1, (parseExportEntryCore x).isOk = true)
    (h2 : parseExportEntryCore j = .error msg) :
    ∀ idx, readEntriesLoop idx (l1 ++ j :: l2) = .error msg := by
  induction l1 with
  | nil =>
    intro idx
    simp only [List.nil_append, readEntriesLoop, h2]
  | cons x l1 ih =>
    intro idx
    have hx := h1 x (by simp)
    obtain ⟨v, hv⟩ : ∃ v, parseExportEntryCore x = .ok v := by
      cases hparse : parseExportEntryCore x with
      | error e =>
        rw [hparse] at hx
        simp [Except.isOk, Except.toBool] at hx
      | ok v => exact ⟨v, rfl⟩
    have ihh := ih (fun y hy => h1 y (by simp [hy])) (idx + 1)
    simp only [List.cons_append, readEntriesLoop, hv, List.append_eq, ihh]

/-- Claim C2 counterexample: a well-formed record followed by a record with
no start time makes the whole read fail; the well-formed record is not
returned. -/
theorem read_time_entries_counterexample :
    TimeData.read_time_entries [goodRecord, badRecord]
      = .error "Missing start time" := rfl

/-- Claim C2 (amended): a malformed record (missing or unparseable start
time) aborts the whole read with that record's error, discarding every
well-formed record; the caller logs the error once and continues with an
empty entry list, so processing does not continue past the bad record. -/
theorem read_time_entries_malformed_aborts (l1 l2 : List Json) (j : Json)
    (msg : String)
    (h1 : ∀ x ∈ l1, (parseExportEntryCore x).isOk = true)
    (h2 : parseExportEntryCore j = .error msg) :
    TimeData.read_time_entries (l1 ++ j :: l2) = .error msg :=
  readEntriesLoop_append_error l1 l2 j msg h1 h2 0

/-- Claim C2 witness: concrete instance with one good record before and
one after the malformed one. -/
theorem read_time_entries_malformed_aborts_witness :
    TimeData.read_time_entries [goodRecord, badRecord, goodRecord]
      = .error "Missing start time" :=
  read_time_entries_malformed_aborts [goodRecord] [goodRecord] badRecord
    "Missing start time" (by decide) rfl

/-- The tag vector of a built group is its key. -/
theorem tags_mkGroup (tz now : Int) (entries : List TimeEntry) (k : List String) :
    (mkGroup tz now entries k).tags = k := rfl

/-- The tag vectors of the produced groups are exactly the distinct sorted
tag vectors of the input. -/
theorem map_tags_group (tz now : Int) (entries : List TimeEntry) :
    (TimeData.group_entries_by_tags tz now entries).map GroupedEntry.tags
      = (entries.map entryKey).dedup := by
  unfold TimeData.group_entries_by_tags
  rw [List.map_map]
  rw [show (GroupedEntry.tags ∘ mkGroup tz now entries) = id from funext fun k => rfl]
  exact List.map_id _

/-- Membership in a key's bucket. -/
theorem mem_keyEntries (k : List String) (entries : List TimeEntry) (e : TimeEntry) :
    e ∈ keyEntries k entries ↔ e ∈ entries ∧ entryKey e = k := by
  simp [keyEntries]

/-- An entry sits in some date cell of the group of key `k` exactly when it
is in that key's bucket. -/
theorem inGroup_mkGroup_iff (tz now : Int) (entries : List TimeEntry)
    (k : List String) (e : TimeEntry) :
    inGroup e (mkGroup tz now entries k) ↔ e ∈ keyEntries k entries := by
  constructor
  · rintro ⟨p, hp, hep⟩
    have hp2 : p ∈ (groupDates tz (keyEntries k entries)).map
        (fun d => (d, cellEntries tz d (keyEntries k entries))) := hp
    rcases List.mem_map.1 hp2 with ⟨d, hd, rfl⟩
    have hep2 : e ∈ cellEntries tz d (keyEntries k entries) := hep
    exact List.mem_of_mem_filter hep2
  · intro he
    refine ⟨(entryDate tz e, cellEntries tz (entryDate tz e) (keyEntries k entries)),
      ?_, ?_⟩
    · exact List.mem_map.2 ⟨entryDate tz e,
        List.mem_dedup.2 (List.mem_map.2 ⟨e, he, rfl⟩), rfl⟩
    · simp [cellEntries, List.mem_filter, he]

/-- Characterization of membership in the grouping output. -/
theorem mem_group_iff (tz now : Int) (entries : List TimeEntry) (g : GroupedEntry) :
    g ∈ TimeData.group_entries_by_tags tz now entries ↔
      ∃ k ∈ (entries.map entryKey).dedup, g = mkGroup tz now entries k := by
  unfold TimeData.group_entries_by_tags
  constructor
  · intro h
    rcases List.mem_map.1 h with ⟨k, hk, rfl⟩
    exact ⟨k, hk, rfl⟩
  · rintro ⟨k, hk, rfl⟩
    exact List.mem_map.2 ⟨k, hk, rfl⟩

/-- The produced groups have pairwise distinct tag vectors. -/
theorem group_tags_nodup (tz now : Int) (entries : List TimeEntry) :
    ((TimeData.group_entries_by_tags tz now entries).map GroupedEntry.tags).Nodup := by
  rw [map_tags_group]
  exact List.nodup_dedup _

/-- Every input entry lands in the group keyed by its sorted tag vector. -/
theorem exists_group_of_mem (tz now : Int) (entries : List TimeEntry)
    (e : TimeEntry) (he : e ∈ entries) :
    ∃ g ∈ TimeData.group_entries_by_tags tz now entries,
      inGroup e g ∧ g.tags = entryKey e := by
  refine ⟨mkGroup tz now entries (entryKey e), ?_, ?_, rfl⟩
  · exact (mem_group_iff tz now entries _).2
      ⟨entryKey e, List.mem_dedup.2 (List.mem_map.2 ⟨e, he, rfl⟩), rfl⟩
  · exact (inGroup_mkGroup_iff tz now entries (entryKey e) e).2
      ((mem_keyEntries _ _ _).2 ⟨he, rfl⟩)

/-- An entry contained in a produced group has that group's tag vector as
its own sorted tag vector, and comes from the input. -/
theorem inGroup_tags (tz now : Int) (entries : List TimeEntry) (g : GroupedEntry)
    (e : TimeEntry) (hg : g ∈ TimeData.group_entries_by_tags tz now entries)
    (h : inGroup e g) : entryKey e = g.tags ∧ e ∈ entries := by
  rcases (mem_group_iff tz now entries g).1 hg with ⟨k, hk, rfl⟩
  rcases (mem_keyEntries _ _ _).1 ((inGroup_mkGroup_iff tz now entries k e).1 h)
    with ⟨h1, h2⟩
  exact ⟨h2, h1⟩

/-- Two produced groups with equal tag vectors are the same group. -/
theorem group_eq_of_tags_eq (tz now : Int) (entries : List TimeEntry)
    (g1 g2 : GroupedEntry)
    (h1 : g1 ∈ TimeData.group_entries_by_tags tz now entries)
    (h2 : g2 ∈ TimeData.group_entries_by_tags tz now entries)
    (ht : g1.tags = g2.tags) : g1 = g2 :=
  List.inj_on_of_nodup_map (group_tags_nodup tz now entries) h1 h2 ht

/-- Claim C4: grouping is a partition — every input entry appears in
exactly one produced group (membership in some date cell), every entry
stored in a group has that group's sorted tag vector, empty-tag entries
can only sit in a group whose tag vector is empty, and entries with the
same sorted tag vector (in particular all empty-tag entries) land in the
same single group. -/
theorem grouping_partition (tz now : Int) (entries : List TimeEntry) :
    (∀ e ∈ entries,
        ∃! g, g ∈ TimeData.group_entries_by_tags tz now entries ∧ inGroup e g) ∧
    (∀ g ∈ TimeData.group_entries_by_tags tz now entries, ∀ p ∈ g.entries,
        ∀ e ∈ p.2, entryKey e = g.tags) ∧
    (∀ e ∈ entries, e.tags = [] →
        ∀ g ∈ TimeData.group_entries_by_tags tz now entries,
          inGroup e g → g.tags = []) ∧
    (∀ e1 ∈ entries, ∀ e2 ∈ entries, entryKey e1 = entryKey e2 →
        ∀ g1 ∈ TimeData.group_entries_by_tags tz now entries,
          ∀ g2 ∈ TimeData.group_entries_by_tags tz now entries,
            inGroup e1 g1 → inGroup e2 g2 → g1 = g2) := by
  refine ⟨?_, ?_, ?_, ?_⟩
  · intro e he
    rcases exists_group_of_mem tz now entries e he with ⟨g, hg, hin, htags⟩
    refine ⟨g, ⟨hg, hin⟩, ?_⟩
    rintro g2 ⟨hg2, hin2⟩
    apply group_eq_of_tags_eq tz now entries g2 g hg2 hg
    rw [← (inGroup_tags tz now entries g2 e hg2 hin2).1, htags]
  · intro g hg p hp e hep
    rcases (mem_group_iff tz now entries g).1 hg with ⟨k, hk, rfl⟩
    have hp2 : p ∈ (groupDates tz (keyEntries k entries)).map
        (fun d => (d, cellEntries tz d (keyEntries k entries))) := hp
    rcases List.mem_map.1 hp2 with ⟨d, hd, rfl⟩
    have hep2 : e ∈ cellEntries tz d (keyEntries k entries) := hep
    exact ((mem_keyEntries _ _ _).1 (List.mem_of_mem_filter hep2)).2
  · intro e he htags g hg hin
    rw [← (inGroup_tags tz now entries g e hg hin).1]
    unfold entryKey sortTags
    rw [htags]
    rfl
  · intro e1 he1 e2 he2 hkey g1 hg1 g2 hg2 hin1 hin2
    apply group_eq_of_tags_eq tz now entries g1 g2 hg1 hg2
    rw [← (inGroup_tags tz now entries g1 e1 hg1 hin1).1,
      ← (inGroup_tags tz now entries g2 e2 hg2 hin2).1, hkey]

/-- Claim C4 witness: a concrete entry appears in exactly one group. -/
theorem grouping_partition_witness :
    ∃! g, g ∈ TimeData.group_entries_by_tags 0 0 [sampleEntryA] ∧
      inGroup sampleEntryA g :=
  (grouping_partition 0 0 [sampleEntryA]).1 sampleEntryA (by decide)

/-- A list splits into the part satisfying a predicate and the rest. -/
theorem length_filter_add_length_filter_not {α : Type} (l : List α) (p : α → Bool) :
    (l.filter p).length + (l.filter (fun a => !(p a))).length = l.length := by
  induction l with
  | nil => rfl
  | cons a l ih =>
    cases h : p a <;> simp [List.filter_cons, h, ← ih] <;> omega

/-- Under distinct tag vectors, at most one group matches a tag vector. -/
theorem filter_tags_len_le_one (gs : List GroupedEntry)
    (hnd : (gs.map GroupedEntry.tags).Nodup) (t : List String) :
    (gs.filter (fun g => decide (g.tags = t))).length ≤ 1 := by
  induction gs with
  | nil => simp
  | cons g gs ih =>
    rw [List.map_cons, List.nodup_cons] at hnd
    obtain ⟨hni, hnd2⟩ := hnd
    by_cases h : g.tags = t
    · rw [List.filter_cons_of_pos (by simpa using h)]
      have hnil : gs.filter (fun g => decide (g.tags = t)) = [] := by
        rw [List.filter_eq_nil_iff]
        intro g2 hg2
        simp only [decide_eq_true_eq]
        intro hgt
        have : g.tags ∈ List.map GroupedEntry.tags gs := by
          rw [h, ← hgt]
          exact List.mem_map.2 ⟨g2, hg2, rfl⟩
        exact hni this
      rw [hnil]
      simp
    · rw [List.filter_cons_of_neg (by simpa using h)]
      exact ih hnd2

/-- Claim C9: the produced groups have pairwise distinct sorted tag
vectors, so at most one group matches any tag vector, and removing groups
from the pool by tag-vector equality deletes at most one group per
vector. -/
theorem grouping_tag_keys_unique (tz now : Int) (entries : List TimeEntry) :
    ((TimeData.group_entries_by_tags tz now entries).map GroupedEntry.tags).Nodup ∧
    ∀ t : List String,
      ((TimeData.group_entries_by_tags tz now entries).filter
          (fun g => decide (g.tags = t))).length ≤ 1 ∧
      (TimeData.group_entries_by_tags tz now entries).length -
          (removeByTags (TimeData.group_entries_by_tags tz now entries) [t]).length
        ≤ 1 := by
  have hnd := group_tags_nodup tz now entries
  refine ⟨hnd, fun t => ⟨filter_tags_len_le_one _ hnd t, ?_⟩⟩
  have heq : removeByTags (TimeData.group_entries_by_tags tz now entries) [t]
      = (TimeData.group_entries_by_tags tz now entries).filter
          (fun g => !(decide (g.tags = t))) := by
    unfold removeByTags
    apply List.filter_congr
    intro g hg
    by_cases h : g.tags = t <;> simp [h]
  rw [heq]
  have hsum := length_filter_add_length_filter_not
    (TimeData.group_entries_by_tags tz now entries)
    (fun g => decide (g.tags = t))
  have hle := filter_tags_len_le_one _ hnd t
  omega

/-- Claim C5: in every produced group, the duration stored for a date is
the sum over the date cell's entries of the whole-minute truncated
difference (end or now) minus start; an entry whose start equals its end
contributes zero minutes yet still appears in its cell. -/
theorem grouping_cell_durations (tz now : Int) (entries : List TimeEntry) :
    (∀ g ∈ TimeData.group_entries_by_tags tz now entries,
        g.total_duration
          = g.entries.map (fun p => (p.1, (p.2.map (entryMinutes now)).sum))) ∧
    (∀ e : TimeEntry, e.end_ = some e.start → entryMinutes now e = 0) ∧
    (∀ e ∈ entries, e.end_ = some e.start →
        ∃ g ∈ TimeData.group_entries_by_tags tz now entries, inGroup e g) := by
  refine ⟨?_, ?_, ?_⟩
  · intro g hg
    rcases (mem_group_iff tz now entries g).1 hg with ⟨k, hk, rfl⟩
    show (groupDates tz (keyEntries k entries)).map
        (fun d => (d, ((cellEntries tz d (keyEntries k entries)).map
            (entryMinutes now)).sum))
      = ((groupDates tz (keyEntries k entries)).map
          (fun d => (d, cellEntries tz d (keyEntries k entries)))).map
          (fun p => (p.1, (p.2.map (entryMinutes now)).sum))
    rw [List.map_map]
    rfl
  · intro e h
    unfold entryMinutes
    rw [h]
    show (e.start - e.start).tdiv 60 = 0
    rw [sub_self]
    rfl
  · intro e he _
    rcases exists_group_of_mem tz now entries e he with ⟨g, hg, hin, _⟩
    exact ⟨g, hg, hin⟩

/-- Claim C5 witness: a concrete zero-length entry contributes zero
minutes and still appears in a group. -/
theorem grouping_cell_durations_witness :
    entryMinutes 0 sampleEntryZero = 0 ∧
    ∃ g ∈ TimeData.group_entries_by_tags 0 0 [sampleEntryZero],
      inGroup sampleEntryZero g :=
  ⟨(grouping_cell_durations 0 0 []).2.1 sampleEntryZero rfl,
   (grouping_cell_durations 0 0 [sampleEntryZero]).2.2 sampleEntryZero
     (by decide) rfl⟩

/-- Equivalent entries have the same sorted tag vector. -/
theorem EntryEquiv.key_eq {e e2 : TimeEntry} (h : EntryEquiv e e2) :
    entryKey e = entryKey e2 := by
  unfold entryKey sortTags
  exact List.eq_of_perm_of_sorted
    ((List.perm_insertionSort _ _).trans
      (h.2.2.2.1.trans (List.perm_insertionSort _ _).symm))
    (List.sorted_insertionSort _ _) (List.sorted_insertionSort _ _)

/-- Equivalent entries fall on the same local date. -/
theorem EntryEquiv.date_eq (tz : Int) {e e2 : TimeEntry} (h : EntryEquiv e e2) :
    entryDate tz e = entryDate tz e2 := by
  unfold entryDate to_local_date
  rw [h.2.1]

/-- Equivalent entries have the same whole-minute duration. -/
theorem EntryEquiv.minutes_eq (now : Int) {e e2 : TimeEntry} (h : EntryEquiv e e2) :
    entryMinutes now e = entryMinutes now e2 := by
  unfold entryMinutes
  rw [h.2.1, h.2.2.1]

/-- Filtering by a predicate that respects a relation preserves pointwise
relatedness. -/
theorem forall2_filter {R : TimeEntry → TimeEntry → Prop} {p : TimeEntry → Bool}
    (hp : ∀ a b, R a b → p a = p b) :
    ∀ {l1 l2 : List TimeEntry}, List.Forall₂ R l1 l2 →
      List.Forall₂ R (l1.filter p) (l2.filter p) := by
  intro l1 l2 h
  induction h with
  | nil => exact List.Forall₂.nil
  | @cons a b t1 t2 hab hrest ih =>
    by_cases hpa : p a = true
    · rw [List.filter_cons_of_pos hpa,
        List.filter_cons_of_pos (by rw [← hp a b hab]; exact hpa)]
      exact List.Forall₂.cons hab ih
    · rw [List.filter_cons_of_neg hpa,
        List.filter_cons_of_neg (by rw [← hp a b hab]; exact hpa)]
      exact ih

/-- Mapping a function that respects a relation over pointwise related
lists yields equal lists. -/
theorem forall2_map_eq {R : TimeEntry → TimeEntry → Prop} {γ : Type}
    {f : TimeEntry → γ} (hf : ∀ a b, R a b → f a = f b) :
    ∀ {l1 l2 : List TimeEntry}, List.Forall₂ R l1 l2 → l1.map f = l2.map f := by
  intro l1 l2 h
  induction h with
  | nil => rfl
  | @cons a b t1 t2 hab hrest ih =>
    simp only [List.map_cons, hf a b hab, ih]

/-- `EntryListEquiv` is preserved by filtering with a respectful
predicate. -/
theorem entryListEquiv_filter {p : TimeEntry → Bool}
    (hp : ∀ a b, EntryEquiv a b → p a = p b) {l1 l2 : List TimeEntry}
    (h : EntryListEquiv l1 l2) : EntryListEquiv (l1.filter p) (l2.filter p) := by
  rcases h with ⟨m, h1, h2⟩
  exact ⟨m.filter p, forall2_filter hp h1, h2.filter p⟩

/-- Mapping a respectful function over `EntryListEquiv` lists yields
permuted value lists. -/
theorem entryListEquiv_map_perm {γ : Type} {f : TimeEntry → γ}
    (hf : ∀ a b, EntryEquiv a b → f a = f b) {l1 l2 : List TimeEntry}
    (h : EntryListEquiv l1 l2) : (l1.map f).Perm (l2.map f) := by
  rcases h with ⟨m, h1, h2⟩
  rw [forall2_map_eq hf h1]
  exact h2.map f

/-- Lookup in an association list built as the graph of a function over a
key list. -/
theorem lookup_map_graph {β : Type} (dates : List Int) (f : Int → β) (d : Int) :
    List.lookup d (dates.map (fun x => (x, f x)))
      = if d ∈ dates then some (f d) else none := by
  induction dates with
  | nil => simp
  | cons x xs ih =>
    simp only [List.map_cons, List.lookup_cons]
    by_cases h : d = x
    · subst h
      simp
    · have hb : (d == x) = false := by simpa using h
      rw [hb]
      simp only [ih, List.mem_cons]
      by_cases hm : d ∈ xs
      · rw [if_pos hm, if_pos (Or.inr hm)]
      · rw [if_neg hm, if_neg (by rintro (rfl | hc) <;> [exact h rfl; exact hm hc])]

/-- The duration map of a built group, as a lookup function. -/
theorem lookup_total_duration (tz now : Int) (entries : List TimeEntry)
    (k : List String) (d : Int) :
    List.lookup d (mkGroup tz now entries k).total_duration
      = if d ∈ groupDates tz (keyEntries k entries)
        then some (((cellEntries tz d (keyEntries k entries)).map
            (entryMinutes now)).sum)
        else none :=
  lookup_map_graph (groupDates tz (keyEntries k entries)) _ d

/-- The entry-cell map of a built group, as a lookup function. -/
theorem lookup_entries_cells (tz now : Int) (entries : List TimeEntry)
    (k : List String) (d : Int) :
    List.lookup d (mkGroup tz now entries k).entries
      = if d ∈ groupDates tz (keyEntries k entries)
        then some (cellEntries tz d (keyEntries k entries)) else none :=
  lookup_map_graph (groupDates tz (keyEntries k entries)) _ d

/-- The bucket of a key respects `EntryListEquiv`. -/
theorem keyEntries_equiv (k : List String) {l1 l2 : List TimeEntry}
    (h : EntryListEquiv l1 l2) :
    EntryListEquiv (keyEntries k l1) (keyEntries k l2) :=
  entryListEquiv_filter
    (fun a b hab => by rw [show entryKey a = entryKey b from hab.key_eq]) h

/-- The date cell of a bucket respects `EntryListEquiv`. -/
theorem cellEntries_equiv (tz d : Int) {l1 l2 : List TimeEntry}
    (h : EntryListEquiv l1 l2) :
    EntryListEquiv (cellEntries tz d l1) (cellEntries tz d l2) :=
  entryListEquiv_filter
    (fun a b hab => by rw [show entryDate tz a = entryDate tz b from hab.date_eq tz]) h

/-- The distinct date lists of equivalent buckets are permutations. -/
theorem groupDates_perm (tz : Int) {l1 l2 : List TimeEntry}
    (h : EntryListEquiv l1 l2) :
    (groupDates tz l1).Perm (groupDates tz l2) :=
  (entryListEquiv_map_perm (fun _ _ hab => hab.date_eq tz) h).dedup

/-- Claim C6: grouping is order-independent — for inputs containing the
same entries up to sequence order and per-entry tag order, grouping at
the same time yields the same set of tag keys, and groups with equal
keys have identical per-date duration sums and equivalent per-date entry
cells. -/
theorem grouping_order_independent (tz now : Int) (l1 l2 : List TimeEntry)
    (h : EntryListEquiv l1 l2) :
    ((TimeData.group_entries_by_tags tz now l1).map GroupedEntry.tags).Perm
      ((TimeData.group_entries_by_tags tz now l2).map GroupedEntry.tags) ∧
    ∀ g1 ∈ TimeData.group_entries_by_tags tz now l1,
      ∀ g2 ∈ TimeData.group_entries_by_tags tz now l2,
        g1.tags = g2.tags →
          (∀ d : Int, List.lookup d g1.total_duration
              = List.lookup d g2.total_duration) ∧
          (∀ d : Int, OptCellEquiv (List.lookup d g1.entries)
              (List.lookup d g2.entries)) := by
  constructor
  · rw [map_tags_group, map_tags_group]
    exact (entryListEquiv_map_perm (fun a b hab => hab.key_eq) h).dedup
  · intro g1 hg1 g2 hg2 ht
    rcases (mem_group_iff tz now l1 g1).1 hg1 with ⟨k, hk, rfl⟩
    rcases (mem_group_iff tz now l2 g2).1 hg2 with ⟨k2, hk2, rfl⟩
    have hkk : k = k2 := ht
    subst hkk
    have hke : EntryListEquiv (keyEntries k l1) (keyEntries k l2) :=
      keyEntries_equiv k h
    have hdates := groupDates_perm tz hke
    have hmem : ∀ d : Int,
        d ∈ groupDates tz (keyEntries k l1) ↔ d ∈ groupDates tz (keyEntries k l2) :=
      fun d => hdates.mem_iff
    constructor
    · intro d
      rw [lookup_total_duration, lookup_total_duration]
      by_cases hd : d ∈ groupDates tz (keyEntries k l1)
      · rw [if_pos hd, if_pos ((hmem d).1 hd)]
        have hcell := cellEntries_equiv tz d hke
        have hperm :=
          entryListEquiv_map_perm (fun a b hab => hab.minutes_eq now) hcell
        rw [hperm.sum_eq]
      · rw [if_neg hd, if_neg (fun hc => hd ((hmem d).2 hc))]
    · intro d
      rw [lookup_entries_cells, lookup_entries_cells]
      by_cases hd : d ∈ groupDates tz (keyEntries k l1)
      · rw [if_pos hd, if_pos ((hmem d).1 hd)]
        exact cellEntries_equiv tz d hke
      · rw [if_neg hd, if_neg (fun hc => hd ((hmem d).2 hc))]
        trivial

/-- Claim C6 witness: swapping the input order and reordering one entry's
tags yields the same set of group tag keys. -/
theorem grouping_order_independent_witness :
    ((TimeData.group_entries_by_tags 0 0 [sampleEntryA, sampleEntryB]).map
        GroupedEntry.tags).Perm
      ((TimeData.group_entries_by_tags 0 0 [sampleEntryB2, sampleEntryA]).map
        GroupedEntry.tags) :=
  (grouping_order_independent 0 0 [sampleEntryA, sampleEntryB]
    [sampleEntryB2, sampleEntryA]
    ⟨[sampleEntryA, sampleEntryB2],
      List.Forall₂.cons (by decide) (List.Forall₂.cons (by decide) List.Forall₂.nil),
      by decide⟩).1

/-- Decoding an encoded project recovers it. -/
theorem decodeProject_encode (p : CeloxisProject) :
    decodeProject (encodeProject p) = .ok p := by
  obtain ⟨i, n, de, st⟩ := p
  cases de <;> rfl

/-- Decoding an encoded task recovers it. -/
theorem decodeTask_encode (t : CeloxisTask) :
    decodeTask (encodeTask t) = .ok t := by
  obtain ⟨i, n⟩ := t
  rfl

/-- Decoding an encoded task list recovers it. -/
theorem decodeTaskList_encode (l : List CeloxisTask) :
    decodeTaskList (.arr (l.map encodeTask)) = .ok l := by
  unfold decodeTaskList
  induction l with
  | nil => rfl
  | cons t l ih =>
    simp only [List.map_cons, List.mapM_cons, decodeTask_encode, bind, Except.bind,
      List.map_cons] at ih ⊢
    rw [ih]
    rfl

/-- Decoding an encoded user-preferences record recovers it. -/
theorem decodePrefs_encode (u : UserPreferences) :
    decodePrefs (encodePrefs u) = .ok u := by
  obtain ⟨a, b⟩ := u
  rfl

/-- Decoding the encoded projects map recovers it. -/
theorem decodeMap_encode_projects (l : List (String × CeloxisProject)) :
    decodeMap decodeProject (.obj (l.map (fun p => (p.1, encodeProject p.2))))
      = .ok l := by
  unfold decodeMap
  induction l with
  | nil => rfl
  | cons p l ih =>
    simp only [List.map_cons, List.mapM_cons, decodeProject_encode, bind,
      Except.bind] at ih ⊢
    rw [ih]
    rfl

/-- Decoding the encoded tasks map recovers it. -/
theorem decodeMap_encode_tasks (l : List (String × List CeloxisTask)) :
    decodeMap decodeTaskList
        (.obj (l.map (fun p => (p.1, .arr (p.2.map encodeTask))))) = .ok l := by
  unfold decodeMap
  induction l with
  | nil => rfl
  | cons p l ih =>
    simp only [List.map_cons, List.mapM_cons, decodeTaskList_encode, bind,
      Except.bind] at ih ⊢
    rw [ih]
    rfl

/-- Decoding the encoded cache document recovers it whole. -/
theorem decodeCacheData_encode (c : CacheData) :
    decodeCacheData (encodeCacheData c) = .ok c := by
  obtain ⟨ps, ts, lu, up⟩ := c
  have hp := decodeMap_encode_projects ps
  have ht := decodeMap_encode_tasks ts
  cases up with
  | none =>
    simp only [encodeCacheData, decodeCacheData, reqField, jGet, List.find?,
      bind, Except.bind]
    simp only [show (("projects" : String) == "projects") = true from rfl]
    simp [hp, ht]
    rfl
  | some u =>
    obtain ⟨ua, ub⟩ := u
    simp only [encodeCacheData, decodeCacheData, reqField, jGet, List.find?,
      bind, Except.bind]
    simp only [show (("projects" : String) == "projects") = true from rfl]
    simp [hp, ht]
    rfl

/-- Claim C8: saving the in-memory cache and loading it back from the same
file yields a cache with identical projects mapping, tasks mapping, and
user preferences (in fact an identical document). -/
theorem cache_roundtrip (c : CacheData) (file : Option Json) (now : Int) :
    ∃ c2, CeloxisApi.load_cache (CeloxisApi.save_cache (some c) file) now
        = .ok c2 ∧
      c2.projects = c.projects ∧ c2.tasks = c.tasks ∧
      c2.user_prefs = c.user_prefs :=
  ⟨c, decodeCacheData_encode c, rfl, rfl, rfl⟩

/-- A successful first split decomposes the input around the separator. -/
theorem splitFirst_append (sep : List Char) :
    ∀ (s a b : List Char), splitFirst sep s = some (a, b) → s = a ++ sep ++ b := by
  intro s
  induction s with
  | nil =>
    intro a b h
    unfold splitFirst at h
    by_cases hs : sep = ([] : List Char)
    · rw [if_pos hs] at h
      injection h with h2
      injection h2 with h3 h4
      subst h3
      subst h4
      simp [hs]
    · rw [if_neg hs] at h
      cases h
  | cons c rest ih =>
    intro a b h
    unfold splitFirst at h
    by_cases hp : sep.isPrefixOf (c :: rest) = true
    · rw [if_pos hp] at h
      injection h with h2
      injection h2 with h3 h4
      subst h3
      subst h4
      rcases List.isPrefixOf_iff_prefix.1 hp with ⟨t, ht⟩
      rw [List.nil_append, ← ht, List.drop_left]
    · rw [if_neg hp] at h
      cases hrec : splitFirst sep rest with
      | none => rw [hrec] at h; cases h
      | some p =>
        obtain ⟨a2, b2⟩ := p
        rw [hrec] at h
        injection h with h2
        injection h2 with h3 h4
        subst h3
        subst h4
        have := ih a2 b2 hrec
        simp [this]

/-- The split worker never returns an empty list. -/
theorem splitAllAux_ne_nil (sep : List Char) (fuel : Nat) (s : List Char) :
    splitAllAux sep fuel s ≠ [] := by
  cases fuel with
  | zero => simp [splitAllAux]
  | succ n =>
    unfold splitAllAux
    cases h : splitFirst sep s with
    | none => simp
    | some p =>
      obtain ⟨a, b⟩ := p
      simp

/-- A two-part split decomposes the input around one separator occurrence. -/
theorem splitAllOn_two (sep s a b : List Char) (hsep : sep ≠ [])
    (h : splitAllOn sep s = [a, b]) : s = a ++ sep ++ b := by
  unfold splitAllOn splitAllAux at h
  cases hsf : splitFirst sep s with
  | none => rw [hsf] at h; cases h
  | some p =>
    obtain ⟨a2, b2⟩ := p
    rw [hsf] at h
    injection h with h1 h2
    subst h1
    have hs := splitFirst_append sep s a2 b2 hsf
    cases hfuel : s.length with
    | zero =>
      rw [List.length_eq_zero.1 hfuel] at hsf
      unfold splitFirst at hsf
      rw [if_neg hsep] at hsf
      cases hsf
    | succ n =>
      rw [hfuel] at h2
      unfold splitAllAux at h2
      cases hsf2 : splitFirst sep b2 with
      | none =>
        rw [hsf2] at h2
        injection h2 with h3
        subst h3
        exact hs
      | some q =>
        obtain ⟨a3, b3⟩ := q
        rw [hsf2] at h2
        injection h2 with h3 h4
        exact absurd h4 (splitAllAux_ne_nil sep n b3)

/-- The head of a whitespace-stripped list is not whitespace. -/
theorem dropWhile_head_not_ws :
    ∀ {l : List Char} {c : Char} {cs : List Char},
      l.dropWhile isWs = c :: cs → isWs c = false := by
  intro l
  induction l with
  | nil =>
    intro c cs h
    simp [List.dropWhile] at h
  | cons a l ih =>
    intro c cs h
    rw [List.dropWhile_cons] at h
    by_cases ha : isWs a = true
    · rw [if_pos ha] at h
      exact ih h
    · rw [if_neg ha] at h
      injection h with h1 h2
      subst h1
      simpa using ha

/-- The last character of a trimmed text is never whitespace. -/
theorem trimChars_getLast_not_ws (x : List Char) (c : Char)
    (h : (trimChars x).getLast? = some c) : isWs c = false := by
  unfold trimChars at h
  rw [List.getLast?_reverse] at h
  cases hz : List.dropWhile isWs ((x.dropWhile isWs).reverse) with
  | nil => rw [hz] at h; cases h
  | cons c2 cs =>
    rw [hz] at h
    injection h with h1
    subst h1
    exact dropWhile_head_not_ws hz

/-- A text that trims to nothing is all whitespace. -/
theorem trimChars_nil_all_ws (b : List Char) (h : trimChars b = [])
    (c : Char) (hc : c ∈ b) : isWs c = true := by
  unfold trimChars at h
  rw [List.reverse_eq_nil_iff, List.dropWhile_eq_nil_iff] at h
  have hb := List.takeWhile_append_dropWhile isWs b
  rw [← hb] at hc
  rcases List.mem_append.1 hc with h1 | h2
  · exact List.mem_takeWhile_imp h1
  · exact h c (List.mem_reverse.2 h2)

/-- In a two-part split of trimmed text on " - ", the second part cannot
itself trim to nothing: the whole text would then end in whitespace. -/
theorem trim_split_two_end_not_nil (raw a b : List Char)
    (hab : splitAllOn [' ', '-', ' '] (trimChars raw) = [a, b]) :
    trimChars b ≠ [] := by
  intro hnil
  have hdecomp := splitAllOn_two [' ', '-', ' '] (trimChars raw) a b (by simp) hab
  cases hbl : b.getLast? with
  | none =>
    have hbnil : b = [] := List.getLast?_eq_none_iff.1 hbl
    subst hbnil
    have hlast : (trimChars raw).getLast? = some ' ' := by
      rw [hdecomp, List.append_nil, List.getLast?_append]
      rfl
    have hws := trimChars_getLast_not_ws raw ' ' hlast
    exact absurd hws (by simp [isWs])
  | some c0 =>
    have hcws : isWs c0 = true :=
      trimChars_nil_all_ws b hnil c0 (List.mem_of_getLast?_eq_some hbl)
    have hlast : (trimChars raw).getLast? = some c0 := by
      rw [hdecomp, List.getLast?_append, hbl]
      rfl
    have hws := trimChars_getLast_not_ws raw c0 hlast
    rw [hws] at hcws
    exact Bool.noConfusion hcws

/-- The open-interval branch of `from_timewarrior` is dead code: because
the interval text is trimmed before the split on " - ", a successful
parse always carries an end timestamp — the parser can never return an
open interval. -/
theorem from_timewarrior_never_open (line entry_id : String) (e : TimeEntry)
    (h : TimeEntry.from_timewarrior line entry_id = .ok e) : e.end_ ≠ none := by
  simp only [TimeEntry.from_timewarrior] at h
  split at h
  · exact Except.noConfusion h
  split at h
  · exact Except.noConfusion h
  split at h
  · exact Except.noConfusion h
  split at h
  · exact Except.noConfusion h
  split at h
  · exact Except.noConfusion h
  rename_i hlen xx startv hstart
  split at h
  · exact Except.noConfusion h
  rename_i endv heq
  have hne : endv ≠ none := by
    split at heq
    · rename_i hnil
      exfalso
      have hlen2 := not_not.1 hlen
      rcases List.length_eq_two.1 hlen2 with ⟨a, b, hab⟩
      rw [hab] at hnil
      have hnil2 : trimChars b = [] := hnil
      exact trim_split_two_end_not_nil _ a b hab hnil2
    · split at heq
      · exact Except.noConfusion heq
      · injection heq with h3
        rw [← h3]
        simp
  split at h
  all_goals
    injection h with h2
    subst h2
    simpa using hne
